import Mathlib

/-! Verification development for the satirical-news backend (`server.js`):
the JSON response extractor, the multi-model fallback client, the article
cache, category resolution and the RSS projection.  JavaScript strings are
modelled as `List Char` / `String`, JSON numbers as exact decimals
`m / 10 ^ k`, kept normalized so equal values have equal representations. -/

namespace Briefing

/-- JSON values as produced by the runtime JSON parser.  `num m k` is the
exact decimal value `m / 10 ^ k`, normalized so that the mantissa of a
scaled value is never divisible by ten; `obj` keeps fields in first
occurrence order with duplicate keys collapsed (later value wins), as JS
objects do. -/
inductive Json where
  | null : Json
  | bool : Bool → Json
  | num : Int → Nat → Json
  | str : String → Json
  | arr : List Json → Json
  | obj : List (String × Json) → Json

/-- JSON whitespace characters accepted between tokens by `JSON.parse`. -/
def jsonWs (c : Char) : Bool :=
  c = ' ' || c = '\t' || c = '\n' || c = '\r'

/-- Drop leading JSON whitespace. -/
def skipWs : List Char → List Char
  | [] => []
  | c :: rest => if jsonWs c then skipWs rest else c :: rest

/-- Single-character string escapes of JSON. -/
def escChar (c : Char) : Option Char :=
  if c = '"' then some '"'
  else if c = '\\' then some '\\'
  else if c = '/' then some '/'
  else if c = 'b' then some (Char.ofNat 8)
  else if c = 'f' then some (Char.ofNat 12)
  else if c = 'n' then some '\n'
  else if c = 'r' then some '\r'
  else if c = 't' then some '\t'
  else none

/-- Value of a hexadecimal digit, used for unicode escapes. -/
def hexVal (c : Char) : Option Nat :=
  if '0' ≤ c ∧ c ≤ '9' then some (c.toNat - 48)
  else if 'a' ≤ c ∧ c ≤ 'f' then some (c.toNat - 87)
  else if 'A' ≤ c ∧ c ≤ 'F' then some (c.toNat - 55)
  else none

/-- Parse the body of a JSON string literal after the opening quote; returns
the decoded characters and the input remaining after the closing quote. -/
def parseStringBody : Nat → List Char → Option (List Char × List Char)
  | 0, _ => none
  | _ + 1, [] => none
  | fuel + 1, c :: rest =>
    if c = '"' then some ([], rest)
    else if c = '\\' then
      match rest with
      | 'u' :: h1 :: h2 :: h3 :: h4 :: rest2 =>
        match hexVal h1, hexVal h2, hexVal h3, hexVal h4 with
        | some a, some b, some c2, some d =>
          (parseStringBody fuel rest2).map fun p =>
            (Char.ofNat (((a * 16 + b) * 16 + c2) * 16 + d) :: p.1, p.2)
        | _, _, _, _ => none
      | e :: rest2 =>
        match escChar e with
        | some ch => (parseStringBody fuel rest2).map fun p => (ch :: p.1, p.2)
        | none => none
      | [] => none
    else if c.toNat < 32 then none
    else (parseStringBody fuel rest).map fun p => (c :: p.1, p.2)

/-- Decimal value of a digit string. -/
def digitsToNat (ds : List Char) : Nat :=
  ds.foldl (fun a c => a * 10 + (c.toNat - 48)) 0

/-- Parse an optional exponent marker with mandatory digits. -/
def parseExpDigits (s : List Char) : Option (Int × List Char) :=
  let signed : Int × List Char :=
    match s with
    | '+' :: r => (1, r)
    | '-' :: r => (-1, r)
    | _ => (1, s)
  let ds := signed.2.takeWhile Char.isDigit
  let rest := signed.2.dropWhile Char.isDigit
  match ds with
  | [] => none
  | _ => some (signed.1 * (digitsToNat ds : Int), rest)

/-- Parse the exponent part of a JSON number, defaulting to exponent 0. -/
def parseExpPart (s : List Char) : Option (Int × List Char) :=
  match s with
  | 'e' :: rest => parseExpDigits rest
  | 'E' :: rest => parseExpDigits rest
  | _ => some (0, s)

/-- Parse the fractional part of a JSON number, returning its digit string
(empty when there is no fraction). -/
def parseFracPart (s : List Char) : Option (List Char × List Char) :=
  match s with
  | '.' :: rest =>
    let ds := rest.takeWhile Char.isDigit
    let r2 := rest.dropWhile Char.isDigit
    match ds with
    | [] => none
    | _ => some (ds, r2)
  | _ => some ([], s)

/-- Strip factors of ten from a scaled mantissa so that equal decimal
values get equal representations. -/
def normDec : Int → Nat → Int × Nat
  | m, 0 => (m, 0)
  | m, k + 1 => if m % 10 = 0 then normDec (m / 10) k else (m, k + 1)

/-- Exact decimal value of a parsed JSON number: sign, integer digits,
fraction digits and decimal exponent combined into `m / 10 ^ k` form. -/
def decValue (neg : Bool) (intDs fracDs : List Char) (e : Int) : Int × Nat :=
  let m0 : Int := (digitsToNat (intDs ++ fracDs) : Int)
  let m1 : Int := if neg then -m0 else m0
  let t : Int := e - (fracDs.length : Int)
  if 0 ≤ t then normDec (m1 * (10 : Int) ^ t.toNat) 0 else normDec m1 (-t).toNat

/-- Parse a JSON numeric literal (sign, integer part without leading zeros,
optional fraction and exponent) into its exact decimal value. -/
def parseNumber (s : List Char) : Option ((Int × Nat) × List Char) :=
  let signed : Bool × List Char :=
    match s with
    | '-' :: r => (true, r)
    | _ => (false, s)
  let ds := signed.2.takeWhile Char.isDigit
  let s2 := signed.2.dropWhile Char.isDigit
  match ds with
  | [] => none
  | _ =>
    if ds.length > 1 ∧ ds.head? = some (Char.ofNat 48) then none
    else
      match parseFracPart s2 with
      | none => none
      | some (fds, s3) =>
        match parseExpPart s3 with
        | none => none
        | some (e, s4) => some (decValue signed.1 ds fds e, s4)

/-- Overwrite-or-append assignment on an association list, mirroring JS
object key assignment (later assignment wins, first position kept). -/
def objSet (fields : List (String × Json)) (k : String) (v : Json) :
    List (String × Json) :=
  if fields.any (fun p => p.1 = k) then
    fields.map (fun p => if p.1 = k then (k, v) else p)
  else fields ++ [(k, v)]

/-- Collapse parsed object members into JS object fields (duplicates
overwritten in place). -/
def objFromMembers (ms : List (String × Json)) : List (String × Json) :=
  ms.foldl (fun acc p => objSet acc p.1 p.2) []

mutual

/-- Parse one JSON value, fuelled. -/
def parseValue : Nat → List Char → Option (Json × List Char)
  | 0, _ => none
  | fuel + 1, s0 =>
    match skipWs s0 with
    | [] => none
    | '"' :: rest =>
      (parseStringBody (rest.length + 1) rest).map fun p =>
        (Json.str (String.mk p.1), p.2)
    | '[' :: rest =>
      (match skipWs rest with
       | ']' :: r2 => some (Json.arr [], r2)
       | r => (parseElems fuel r).map fun p => (Json.arr p.1, p.2))
    | '{' :: rest =>
      (match skipWs rest with
       | '}' :: r2 => some (Json.obj [], r2)
       | r => (parseMembers fuel r).map fun p => (Json.obj (objFromMembers p.1), p.2))
    | 't' :: 'r' :: 'u' :: 'e' :: rest => some (Json.bool true, rest)
    | 'f' :: 'a' :: 'l' :: 's' :: 'e' :: rest => some (Json.bool false, rest)
    | 'n' :: 'u' :: 'l' :: 'l' :: rest => some (Json.null, rest)
    | s => (parseNumber s).map fun p => (Json.num p.1.1 p.1.2, p.2)
termination_by structural fuel _ => fuel

/-- Parse the comma-separated elements of a non-empty JSON array up to and
including the closing bracket. -/
def parseElems : Nat → List Char → Option (List Json × List Char)
  | 0, _ => none
  | fuel + 1, s =>
    match parseValue fuel s with
    | none => none
    | some (v, r) =>
      match skipWs r with
      | ',' :: r2 => (parseElems fuel r2).map fun p => (v :: p.1, p.2)
      | ']' :: r2 => some ([v], r2)
      | _ => none
termination_by structural fuel _ => fuel

/-- Parse the members of a non-empty JSON object up to and including the
closing brace. -/
def parseMembers : Nat → List Char → Option (List (String × Json) × List Char)
  | 0, _ => none
  | fuel + 1, s =>
    match skipWs s with
    | '"' :: rest =>
      (match parseStringBody (rest.length + 1) rest with
       | none => none
       | some (key, r1) =>
         match skipWs r1 with
         | ':' :: r2 =>
           (match parseValue fuel r2 with
            | none => none
            | some (v, r3) =>
              match skipWs r3 with
              | ',' :: r4 =>
                (parseMembers fuel r4).map fun p => ((String.mk key, v) :: p.1, p.2)
              | '}' :: r4 => some ([(String.mk key, v)], r4)
              | _ => none)
         | _ => none)
    | _ => none
termination_by structural fuel _ => fuel

end

/-- Model of `JSON.parse`: parse one JSON value and require only trailing
whitespace after it; `none` models a thrown `SyntaxError`. -/
def parseJson (s : List Char) : Option Json :=
  match parseValue (2 * s.length + 4) s with
  | none => none
  | some (v, rest) => if skipWs rest = [] then some v else none

/-- Whether `pat` occurs at the very start of the second list. -/
def leadsWith : List Char → List Char → Bool
  | [], _ => true
  | _ :: _, [] => false
  | a :: as, b :: bs => a = b && leadsWith as bs

/-- Split a list at the leftmost occurrence of `pat`: returns the part
before the occurrence and the part after it. -/
def splitFirst (pat : List Char) : List Char → Option (List Char × List Char)
  | [] => none
  | c :: rest =>
    if leadsWith pat (c :: rest) then some ([], (c :: rest).drop pat.length)
    else
      match splitFirst pat rest with
      | some (pre, post) => some (c :: pre, post)
      | none => none

/-- Whether `pat` occurs as a contiguous substring. -/
def containsSub (pat s : List Char) : Bool :=
  (splitFirst pat s).isSome

/-- Opening delimiter of a fenced block labelled json, newline included. -/
def fenceOpenJson : List Char := "```json\n".data

/-- Opening delimiter of an unlabelled fenced block, newline included. -/
def fenceOpenBare : List Char := "```\n".data

/-- Closing delimiter of a fenced block, preceded by its newline. -/
def fenceClose : List Char := "\n```".data

/-- Lazy leftmost match of one fence pattern: find the first opening
delimiter, then capture up to the first closing delimiter after it. -/
def fenceMatchWith (opening : List Char) (s : List Char) : Option (List Char) :=
  match splitFirst opening s with
  | none => none
  | some (_, rest) =>
    match splitFirst fenceClose rest with
    | none => none
    | some (mid, _) => some mid

/-- The `jsonMatch` expression of the source: try the json-labelled fence
regex first, then the unlabelled one. -/
def jsonMatch (s : List Char) : Option (List Char) :=
  match fenceMatchWith fenceOpenJson s with
  | some m => some m
  | none => fenceMatchWith fenceOpenBare s

/-- The `jsonText` variable of the source: the fence capture when a fence
matched, the whole raw text otherwise. -/
def jsonText (s : List Char) : List Char :=
  (jsonMatch s).getD s

/-- The extraction step of the generate handler: parse `jsonText` and
require an array (a non-array parse makes the subsequent `.map` throw, which
the handler treats as this attempt failing).  `none` models the
`ExtractionError` outcome. -/
def extractArticles (raw : String) : Option (List Json) :=
  match parseJson (jsonText raw.data) with
  | some (Json.arr xs) => some xs
  | _ => none

/-- First value stored under a key in a JS object field list. -/
def lookupField : List (String × Json) → String → Option Json
  | [], _ => none
  | p :: rest, k => if p.1 = k then some p.2 else lookupField rest k

/-- JS property read `a[k]`: a field of an object, `undefined` (here
`none`) on everything else. -/
def getField (a : Json) (k : String) : Option Json :=
  match a with
  | Json.obj fs => lookupField fs k
  | _ => none

/-- Spread a field list onto a base object, one JS assignment at a time. -/
def spreadFields (base : List (String × Json)) (fields : List (String × Json)) :
    List (String × Json) :=
  fields.foldl (fun acc p => objSet acc p.1 p.2) base

/-- Index-keyed fields produced by spreading an array or string. -/
def indexFields : Nat → List Json → List (String × Json)
  | _, [] => []
  | i, v :: vs => (toString i, v) :: indexFields (i + 1) vs

/-- The object literal ` \x7b id: idv, ...article \x7d ` of the source: start
from a synthetic `id` field, then spread the enumerable properties of the
article over it, so an article-supplied `id` overwrites the synthetic
one.  Spreading a string or array contributes index-keyed properties;
spreading a primitive contributes nothing. -/
def spreadWithId (idv : Json) : Json → Json
  | Json.obj fs => Json.obj (spreadFields [("id", idv)] fs)
  | Json.str s =>
    Json.obj (("id", idv) :: indexFields 0 (s.data.map fun c => Json.str (String.mk [c])))
  | Json.arr xs => Json.obj (("id", idv) :: indexFields 0 xs)
  | _ => Json.obj [("id", idv)]

/-- Enrich extracted articles starting at position `i`: position `i + j`
gets synthetic id `now + i + j` (`Date.now() + index`). -/
def articlesWithIdsFrom (now : Nat) : Nat → List Json → List Json
  | _, [] => []
  | i, a :: rest =>
    spreadWithId (Json.num ((now + i : Nat) : Int) 0) a ::
      articlesWithIdsFrom now (i + 1) rest

/-- The `articlesWithIds` mapping of the source. -/
def articlesWithIds (now : Nat) (articles : List Json) : List Json :=
  articlesWithIdsFrom now 0 articles

/-- The `id` property of an enriched record. -/
def idOf (a : Json) : Option Json :=
  getField a ("id")

/-- Whether an extracted record is an object carrying its own `id` key. -/
def objHasId : Json → Bool
  | Json.obj fs => fs.any fun p => p.1 = "id"
  | _ => false

/-- Outcome of one upstream generation call, as the `try` block of the handler
distinguishes them: a thrown error (transport failure or missing response
shape), a non-success HTTP status, or a structurally successful response
carrying the generated text. -/
inductive UpstreamOutcome where
  | errorThrown : String → UpstreamOutcome
  | httpError : String → UpstreamOutcome
  | okText : String → UpstreamOutcome

/-- One fallback attempt against a single model: thrown errors and bad
statuses fail, otherwise the generated text goes to the extractor and an
extraction failure also fails this attempt. -/
def attemptModel (oracle : String → String → UpstreamOutcome)
    (model promptStr : String) : Option (List Json) :=
  match oracle model promptStr with
  | UpstreamOutcome.errorThrown _ => none
  | UpstreamOutcome.httpError _ => none
  | UpstreamOutcome.okText t => extractArticles t

/-- Observable outcome of the fallback loop: the upstream calls issued in
order (model with the prompt sent to it), the models whose attempts failed
in order, and the enriched batch of the first success, or `none` when every
model was exhausted (the aggregate failure response). -/
structure GenOutcome where
  attempted : List (String × String)
  failures : List String
  result : Option (List Json)

/-- The `for (const model of models)` fallback loop of the generate
handler: try each model in order, return the enriched batch of the first
successful attempt immediately, fall through to the aggregate failure when
the list is exhausted. -/
def generateLoop (oracle : String → String → UpstreamOutcome) (now : Nat)
    (promptStr : String) : List String → GenOutcome
  | [] => ⟨[], [], none⟩
  | m :: ms =>
    match attemptModel oracle m promptStr with
    | some arts => ⟨[(m, promptStr)], [], some (articlesWithIds now arts)⟩
    | none =>
      let r := generateLoop oracle now promptStr ms
      ⟨(m, promptStr) :: r.attempted, m :: r.failures, r.result⟩

/-- The fixed closed category set of the source. -/
def categories : List String :=
  ["politics", "technology", "lifestyle", "business", "cricket"]

/-- Category resolution: the sentinel `random` draws one of the five fixed
categories (`k` models the uniformly distributed index
`Math.floor(Math.random() * categories.length)`); any other caller-supplied
category is used verbatim. -/
def selectedCategory (k : Fin categories.length) (category : String) : String :=
  if category = "random" then categories.get k else category

/-- The prompt template literal of the source, instantiated once per
request with the resolved category and requested count. -/
def prompt (cat : String) (count : Nat) : String :=
  "Generate " ++ toString count ++
  " satirical news headlines in The Onion style, focused on India. \nCategory: " ++
  cat ++
  "\n\nEach article should be absurd, funny, and exaggerated but grounded in Indian context (cities, culture, work life, etc.).\n\nReturn ONLY a JSON array with this exact structure:\n[\n  \x7b\n    \"category\": \"" ++
  cat ++
  "\",\n    \"headline\": \"Funny satirical headline\",\n    \"summary\": \"One sentence summary of the absurd story\",\n    \"author\": \"Indian name\",\n    \"date\": \"Oct 19, 2025\"\n  \x7d\n]\n\nMake sure headlines are witty and reference Indian culture, cities, daily life, or current trends. Be creative and absurd!"

/-- The generate handler after the credential check: resolve the category,
build the prompt once, and run the fallback loop with that one prompt. -/
def generateNews (oracle : String → String → UpstreamOutcome) (now : Nat)
    (k : Fin categories.length) (category : String) (count : Nat)
    (models : List String) : GenOutcome :=
  generateLoop oracle now (prompt (selectedCategory k category) count) models

/-- The fixed fallback model list of the source. -/
def modelsList : List String :=
  ["gemini-2.5-flash", "gemini-2.0-flash", "gemini-flash-latest",
   "gemini-pro-latest", "gemini-2.5-pro", "gemini-pro"]

/-- The update-cache handler: `cachedArticles = articles || []`, and the
response reports the new count.  `none` models an absent `articles` field. -/
def updateCache (articles : Option (List Json)) : List Json × Nat :=
  let newCache := articles.getD []
  (newCache, newCache.length)

/-- The articles endpoint: returns the cached batch as is. -/
def readArticles (cache : List Json) : List Json :=
  cache

/-- One `<item>` element of the feed.  `display` models JS template-literal
stringification of a property (an external runtime conversion), `toUTC`
models `new Date(x).toUTCString()` on the date property of the article. -/
def itemXml (display : Option Json → String) (toUTC : Option Json → String)
    (baseUrl : String) (a : Json) : String :=
  "\n    <item>\n      <title><![CDATA[" ++ display (getField a ("headline")) ++
  "]]></title>\n      <description><![CDATA[" ++ display (getField a ("summary")) ++
  "]]></description>\n      <author>" ++ display (getField a ("author")) ++
  "</author>\n      <category>" ++ display (getField a ("category")) ++
  "</category>\n      <pubDate>" ++ toUTC (getField a ("date")) ++
  "</pubDate>\n      <guid isPermaLink=\"false\">" ++ baseUrl ++ "/#article-" ++
  display (getField a ("id")) ++ "</guid>\n    </item>"

/-- The `rssItems` mapping of the feed handler:
`cachedArticles.slice(0, 20).map(...)`, one rendered item per retained
article, in cache order. -/
def rssItemList (display : Option Json → String) (toUTC : Option Json → String)
    (baseUrl : String) (cache : List Json) : List String :=
  (cache.take 20).map (itemXml display toUTC baseUrl)

/-- The full feed document; `nowUTC` models the render-time
`new Date().toUTCString()` build timestamp. -/
def rssFeed (display : Option Json → String) (toUTC : Option Json → String)
    (nowUTC : String) (baseUrl : String) (cache : List Json) : String :=
  "<?xml version=\"1.0\" encoding=\"UTF-8\"?>\n<rss version=\"2.0\" xmlns:atom=\"http://www.w3.org/2005/Atom\">\n  <channel>\n    <title>The Briefing - India\x27s Finest Satirical News</title>\n    <link>" ++
  baseUrl ++
  "</link>\n    <description>Absurd, satirical news about India that will make you laugh and question reality</description>\n    <language>en-in</language>\n    <lastBuildDate>" ++
  nowUTC ++
  "</lastBuildDate>\n    <atom:link href=\"" ++ baseUrl ++
  "/rss\" rel=\"self\" type=\"application/rss+xml\"/>\n    " ++
  String.intercalate ("\n") (rssItemList display toUTC baseUrl cache) ++
  "\n  </channel>\n</rss>"

/-! Supporting lemmas about the substring search that models the two fence
regular expressions. -/

theorem leadsWith_iff (pat s : List Char) :
    leadsWith pat s = true ↔ ∃ t, s = pat ++ t := by
  induction pat generalizing s with
  | nil => simp [leadsWith]
  | cons p ps ih =>
    cases s with
    | nil => simp [leadsWith]
    | cons c cs =>
      simp only [leadsWith, Bool.and_eq_true, decide_eq_true_eq, ih, List.cons_append,
        List.cons.injEq]
      constructor
      · rintro ⟨hpc, t, ht⟩
        exact ⟨t, hpc.symm, ht⟩
      · rintro ⟨t, hpc, ht⟩
        exact ⟨hpc.symm, t, ht⟩

theorem leadsWith_append_self (pat t : List Char) :
    leadsWith pat (pat ++ t) = true :=
  (leadsWith_iff pat (pat ++ t)).2 ⟨t, rfl⟩

theorem leadsWith_ext (pat x y z : List Char) (h : pat.length ≤ x.length) :
    leadsWith pat (x ++ y) = leadsWith pat (x ++ z) := by
  induction pat generalizing x with
  | nil => simp [leadsWith]
  | cons p ps ih =>
    cases x with
    | nil => simp at h
    | cons c cs =>
      simp only [List.cons_append, leadsWith, List.append_eq]
      rw [ih cs (by simpa using Nat.le_of_succ_le_succ (by simpa using h))]

theorem splitFirst_sound (pat s a b : List Char)
    (h : splitFirst pat s = some (a, b)) : s = a ++ (pat ++ b) := by
  induction s generalizing a with
  | nil => simp [splitFirst] at h
  | cons c cs ih =>
    rw [splitFirst] at h
    by_cases hl : leadsWith pat (c :: cs) = true
    · rw [if_pos hl] at h
      obtain ⟨t, ht⟩ := (leadsWith_iff pat (c :: cs)).1 hl
      injection h with h'
      injection h' with h1 h2
      subst h1
      subst h2
      rw [ht, List.nil_append, List.drop_left]
    · rw [if_neg hl] at h
      cases hs : splitFirst pat cs with
      | none => rw [hs] at h; exact absurd h (by simp)
      | some pq =>
        rw [hs] at h
        obtain ⟨p, q⟩ := pq
        injection h with h'
        injection h' with h1 h2
        subst h2
        have := ih p (by rw [hs])
        subst h1
        simp [this]

theorem splitFirst_isSome_of_occurrence (pat a b : List Char)
    (hpat : pat ≠ []) : (splitFirst pat (a ++ (pat ++ b))).isSome = true := by
  induction a with
  | nil =>
    cases pat with
    | nil => exact absurd rfl hpat
    | cons p ps =>
      rw [List.nil_append, List.cons_append, splitFirst,
        if_pos (by simpa using leadsWith_append_self (p :: ps) b)]
      simp
  | cons c cs ih =>
    rw [List.cons_append, splitFirst]
    by_cases hl : leadsWith pat (cs ++ (pat ++ b)) = true
    all_goals by_cases hl2 : leadsWith pat (c :: (cs ++ (pat ++ b))) = true
    all_goals simp only [hl2, if_pos, if_neg, Bool.not_eq_true]
    · simp
    · cases hs : splitFirst pat (cs ++ (pat ++ b)) with
      | none => rw [hs] at ih; simp at ih
      | some pq => simp
    · simp
    · cases hs : splitFirst pat (cs ++ (pat ++ b)) with
      | none => rw [hs] at ih; simp at ih
      | some pq => simp

theorem containsSub_of_occurrence (pat s a b : List Char) (hpat : pat ≠ [])
    (h : s = a ++ (pat ++ b)) : containsSub pat s = true := by
  rw [containsSub, h]
  exact splitFirst_isSome_of_occurrence pat a b hpat

theorem splitFirst_eq_none_of_no_occurrence (pat s : List Char)
    (h : ∀ a b, s ≠ a ++ (pat ++ b)) : splitFirst pat s = none := by
  cases hs : splitFirst pat s with
  | none => rfl
  | some pq =>
    obtain ⟨p, q⟩ := pq
    exact absurd (splitFirst_sound pat s p q hs) (h p q)

theorem containsSub_cons (pat : List Char) (c : Char) (s : List Char)
    (h : containsSub pat s = true) : containsSub pat (c :: s) = true := by
  rw [containsSub, splitFirst]
  by_cases hl : leadsWith pat (c :: s) = true
  · rw [if_pos hl]; simp
  · rw [if_neg hl]
    rw [containsSub] at h
    cases hs : splitFirst pat s with
    | none => rw [hs] at h; simp at h
    | some pq => simp

theorem splitFirst_leftmost (pat a b : List Char) (hpat : pat ≠ [])
    (h : containsSub pat (a ++ pat.dropLast) = false) :
    splitFirst pat (a ++ (pat ++ b)) = some (a, b) := by
  induction a with
  | nil =>
    cases pat with
    | nil => exact absurd rfl hpat
    | cons p ps =>
      rw [List.nil_append, List.cons_append, splitFirst,
        if_pos (by simpa using leadsWith_append_self (p :: ps) b)]
      rw [show p :: (ps ++ b) = (p :: ps) ++ b from rfl, List.drop_left]
  | cons c cs ih =>
    have hl : ¬ leadsWith pat (c :: (cs ++ (pat ++ b))) = true := by
      intro hl
      set x : List Char := (c :: cs) ++ pat.dropLast with hx
      have hsplit : pat = pat.dropLast ++ [pat.getLast hpat] :=
        (List.dropLast_append_getLast hpat).symm
      have hshape : c :: (cs ++ (pat ++ b)) = x ++ ([pat.getLast hpat] ++ b) := by
        rw [hx]
        conv_lhs => rw [hsplit]
        simp [List.append_assoc]
      have hlen : pat.length ≤ x.length := by
        rw [hx]
        simp only [List.length_append, List.length_cons, List.length_dropLast]
        have : 1 ≤ pat.length := by
          cases pat with
          | nil => exact absurd rfl hpat
          | cons q qs => simp
        omega
      have hred : leadsWith pat (x ++ []) = true := by
        rw [leadsWith_ext pat x [] ([pat.getLast hpat] ++ b) hlen, ← hshape]
        exact hl
      rw [List.append_nil] at hred
      obtain ⟨t, ht⟩ := (leadsWith_iff pat x).1 hred
      have := containsSub_of_occurrence pat x [] t hpat (by simpa using ht)
      rw [hx] at this
      rw [this] at h
      exact absurd h (by simp)
    have h2 : containsSub pat (cs ++ pat.dropLast) = false := by
      cases hcs : containsSub pat (cs ++ pat.dropLast) with
      | false => rfl
      | true =>
        have := containsSub_cons pat c _ hcs
        rw [show c :: (cs ++ pat.dropLast) = (c :: cs) ++ pat.dropLast from rfl] at this
        rw [this] at h
        exact absurd h (by simp)
    rw [List.cons_append, splitFirst, if_neg hl, ih h2]

/-- Fence patterns are nonempty. -/
theorem fence_patterns_ne_nil :
    fenceOpenJson ≠ [] ∧ fenceOpenBare ≠ [] ∧ fenceClose ≠ [] := by
  refine ⟨?_, ?_, ?_⟩ <;> decide

/-- A well-formed json-labelled fence whose opening delimiter is the first
in the text and whose interior reaches the first closing delimiter is
captured exactly. -/
theorem jsonMatch_fenced (pre mid post : List Char)
    (h1 : containsSub fenceOpenJson (pre ++ fenceOpenJson.dropLast) = false)
    (h2 : containsSub fenceClose (mid ++ fenceClose.dropLast) = false) :
    jsonMatch (pre ++ (fenceOpenJson ++ (mid ++ (fenceClose ++ post)))) = some mid := by
  have ho : splitFirst fenceOpenJson (pre ++ (fenceOpenJson ++ (mid ++ (fenceClose ++ post))))
      = some (pre, mid ++ (fenceClose ++ post)) :=
    splitFirst_leftmost fenceOpenJson pre (mid ++ (fenceClose ++ post))
      fence_patterns_ne_nil.1 h1
  have hc : splitFirst fenceClose (mid ++ (fenceClose ++ post)) = some (mid, post) :=
    splitFirst_leftmost fenceClose mid post fence_patterns_ne_nil.2.2 h2
  simp only [jsonMatch, fenceMatchWith, ho, hc]

/-- C3: the Extractor fails (with an `ExtractionError`) exactly when the
text selected by the fence search does not parse to a JSON array — that is,
when parsing throws a syntax error or the parsed value is not an array; in
particular a JSON object yields the error rather than the object. -/
theorem extract_error_iff :
    (∀ t : String, extractArticles t = none ↔
      ∀ xs, parseJson (jsonText t.data) ≠ some (Json.arr xs)) ∧
    extractArticles ("\x7b\"a\": 1\x7d") = none := by
  constructor
  · intro t
    rw [extractArticles]
    cases hp : parseJson (jsonText t.data) with
    | none => simp
    | some v =>
      cases v with
      | arr xs => simp
      | null => simp
      | bool b => simp
      | num m k => simp
      | str s => simp
      | obj fs => simp
  · rfl

/-- Witness for C3 at a concrete non-JSON input. -/
theorem extract_error_iff_witness : extractArticles ("hello") = none := by
  refine (extract_error_iff.1 ("hello")).mpr ?_
  intro xs hxs
  rw [show parseJson (jsonText (("hello").data)) = none from rfl] at hxs
  exact absurd hxs (by simp)

/-- C4: raw text built from prose, a json-labelled fenced block whose
interior parses to a JSON array, and trailing prose extracts to exactly
that parsed array; the side conditions say the prose does not itself fake
an earlier opening delimiter and the interior does not contain a closing
delimiter. -/
theorem extract_fenced_json_array (pre mid post : List Char) (xs : List Json)
    (h1 : containsSub fenceOpenJson (pre ++ fenceOpenJson.dropLast) = false)
    (h2 : containsSub fenceClose (mid ++ fenceClose.dropLast) = false)
    (hp : parseJson mid = some (Json.arr xs)) :
    extractArticles
      (String.mk (pre ++ (fenceOpenJson ++ (mid ++ (fenceClose ++ post))))) = some xs := by
  have hm := jsonMatch_fenced pre mid post h1 h2
  rw [extractArticles, jsonText,
    show (String.mk (pre ++ (fenceOpenJson ++ (mid ++ (fenceClose ++ post))))).data
      = pre ++ (fenceOpenJson ++ (mid ++ (fenceClose ++ post))) from rfl, hm]
  simp [hp]

/-- Witness for C4: a fenced array surrounded by prose. -/
theorem extract_fenced_json_array_witness :
    extractArticles
      (String.mk ((("Sure, here you go:\n").data) ++ (fenceOpenJson ++
        ((("[1, 2]").data) ++ (fenceClose ++ (("\nEnjoy.").data)))))) =
      some [Json.num 1 0, Json.num 2 0] :=
  extract_fenced_json_array (("Sure, here you go:\n").data) (("[1, 2]").data)
    (("\nEnjoy.").data) [Json.num 1 0, Json.num 2 0] (by decide) (by decide) (by rfl)

/-- C5: raw text that is itself a bare valid JSON array, with no fence
recognized anywhere in it, extracts to exactly that parsed array. -/
theorem extract_bare_array (t : String) (xs : List Json)
    (hfence : jsonMatch t.data = none)
    (hp : parseJson t.data = some (Json.arr xs)) :
    extractArticles t = some xs := by
  rw [extractArticles, jsonText, hfence]
  simp [hp]

/-- Witness for C5 at a concrete bare array. -/
theorem extract_bare_array_witness :
    extractArticles ("[1, 2]") = some [Json.num 1 0, Json.num 2 0] :=
  extract_bare_array ("[1, 2]") [Json.num 1 0, Json.num 2 0] (by rfl) (by rfl)

/-- C10: when no occurrence of an opening delimiter immediately followed by
a newline is ever closed by a newline-preceded closing delimiter — in
particular when a fenced block sits on a single line — neither fence regex
matches and the whole raw text is handed to the JSON parser. -/
theorem extract_ignores_unnewlined_fences (t : String)
    (h1 : ∀ a b, t.data = a ++ (fenceOpenJson ++ b) →
      ∀ c d, b ≠ c ++ (fenceClose ++ d))
    (h2 : ∀ a b, t.data = a ++ (fenceOpenBare ++ b) →
      ∀ c d, b ≠ c ++ (fenceClose ++ d)) :
    jsonMatch t.data = none ∧
    extractArticles t = (match parseJson t.data with
      | some (Json.arr xs) => some xs
      | _ => none) := by
  have hj : fenceMatchWith fenceOpenJson t.data = none := by
    rw [fenceMatchWith]
    cases hs : splitFirst fenceOpenJson t.data with
    | none => rfl
    | some pq =>
      obtain ⟨p, q⟩ := pq
      have hdec := splitFirst_sound _ _ _ _ hs
      have hclose := splitFirst_eq_none_of_no_occurrence fenceClose q (h1 p q hdec)
      simp only [hclose]
  have hb : fenceMatchWith fenceOpenBare t.data = none := by
    rw [fenceMatchWith]
    cases hs : splitFirst fenceOpenBare t.data with
    | none => rfl
    | some pq =>
      obtain ⟨p, q⟩ := pq
      have hdec := splitFirst_sound _ _ _ _ hs
      have hclose := splitFirst_eq_none_of_no_occurrence fenceClose q (h2 p q hdec)
      simp only [hclose]
  have hm : jsonMatch t.data = none := by
    rw [jsonMatch, hj, hb]
  refine ⟨hm, ?_⟩
  rw [extractArticles, jsonText, hm]
  rfl

/-- Witness for C10: a single-line fence is not recognized and the whole
text (which is not valid JSON) fails extraction. -/
theorem extract_ignores_unnewlined_fences_witness :
    jsonMatch (("```json [1, 2] ```").data) = none ∧
    extractArticles ("```json [1, 2] ```") = none := by
  have h := extract_ignores_unnewlined_fences ("```json [1, 2] ```")
    (by
      intro a b hab
      exfalso
      have hn : '\n' ∈ (("```json [1, 2] ```").data) := by
        rw [hab]
        exact List.mem_append.2 (Or.inr (List.mem_append.2 (Or.inl (by decide))))
      exact absurd hn (by decide))
    (by
      intro a b hab
      exfalso
      have hn : '\n' ∈ (("```json [1, 2] ```").data) := by
        rw [hab]
        exact List.mem_append.2 (Or.inr (List.mem_append.2 (Or.inl (by decide))))
      exact absurd hn (by decide))
  exact ⟨h.1, h.2.trans (by rfl)⟩

/-- Every upstream call issued by the fallback loop carries the one prompt
built for the request. -/
theorem generateLoop_prompts (oracle : String → String → UpstreamOutcome)
    (now : Nat) (p : String) (models : List String) :
    ∀ e ∈ (generateLoop oracle now p models).attempted, e.2 = p := by
  induction models with
  | nil => intro e he; simp [generateLoop] at he
  | cons m ms ih =>
    intro e he
    rw [generateLoop] at he
    cases ha : attemptModel oracle m p with
    | some arts =>
      rw [ha] at he
      simp at he
      rw [he]
    | none =>
      rw [ha] at he
      simp at he
      cases he with
      | inl he1 => rw [he1]
      | inr he2 => exact ih e he2

/-- C1: when every model in the list fails (thrown transport error, bad
status, or extraction failure), the loop returns the aggregate failure,
having attempted every model identifier exactly once, in list order, with
no identifier retried, and recording every model as a failure. -/
theorem fallback_all_fail (oracle : String → String → UpstreamOutcome)
    (now : Nat) (p : String) (models : List String)
    (h : ∀ m ∈ models, attemptModel oracle m p = none) :
    generateLoop oracle now p models =
      ⟨models.map (fun m => (m, p)), models, none⟩ := by
  induction models with
  | nil => rfl
  | cons m ms ih =>
    rw [generateLoop, h m (by simp), ih (fun x hx => h x (by simp [hx]))]
    rfl

/-- Witness for C1: two failing models, both attempted in order. -/
theorem fallback_all_fail_witness :
    generateLoop (fun _ _ => UpstreamOutcome.httpError ("quota")) 5 ("p")
        ["a", "b"] =
      ⟨[("a", "p"), ("b", "p")], ["a", "b"], none⟩ :=
  fallback_all_fail _ 5 ("p") ["a", "b"] (by intro m _; rfl)

/-- C2: when the first models all fail and the next one succeeds, the loop
returns that model's enriched batch immediately, attempts nothing after it,
and records exactly the earlier models as failed attempts. -/
theorem fallback_first_success (oracle : String → String → UpstreamOutcome)
    (now : Nat) (p : String) (pre post : List String) (m : String)
    (arts : List Json)
    (hfail : ∀ x ∈ pre, attemptModel oracle x p = none)
    (hok : attemptModel oracle m p = some arts) :
    generateLoop oracle now p (pre ++ (m :: post)) =
      ⟨pre.map (fun x => (x, p)) ++ [(m, p)], pre,
        some (articlesWithIds now arts)⟩ := by
  induction pre with
  | nil =>
    rw [List.nil_append, generateLoop, hok]
    rfl
  | cons x xs ih =>
    rw [List.cons_append, generateLoop, hfail x (by simp),
      ih (fun y hy => hfail y (by simp [hy]))]
    rfl

/-- Witness for C2: one failing model, then a success; the third model is
never attempted. -/
theorem fallback_first_success_witness :
    generateLoop
        (fun mo _ => if mo = "a" then UpstreamOutcome.httpError ("bad")
          else UpstreamOutcome.okText ("[1]")) 9 ("p") ["a", "b", "c"] =
      ⟨[("a", "p"), ("b", "p")], ["a"], some [Json.obj [("id", Json.num 9 0)]]⟩ :=
  fallback_first_success _ 9 ("p") ["a"] ["c"] ("b") [Json.num 1 0]
    (by intro x hx; rw [List.mem_singleton] at hx; subst hx; rfl) (by rfl)

/-- C6 counterexample: a successful batch whose upstream records carry
their own `id` keys keeps those ids (the spread overwrites the synthetic
one), so the ids of the produced batch are not pairwise distinct. -/
theorem ids_not_pairwise_distinct_cex :
    (generateLoop (fun _ _ => UpstreamOutcome.okText
        ("[\x7b\"id\": 5\x7d, \x7b\"id\": 5\x7d]")) 1000 ("p") ["m"]).result =
      some [Json.obj [("id", Json.num 5 0)], Json.obj [("id", Json.num 5 0)]] ∧
    ([Json.obj [("id", Json.num 5 0)], Json.obj [("id", Json.num 5 0)]].map idOf =
      [some (Json.num 5 0), some (Json.num 5 0)]) ∧
    ¬ List.Pairwise (fun x y : Option Json => x ≠ y)
      [some (Json.num 5 0), some (Json.num 5 0)] := by
  refine ⟨rfl, rfl, ?_⟩
  intro hp
  exact (List.pairwise_cons.1 hp).1 _ (by simp) rfl

theorem lookupField_map_set_ne (k : String) (v2 : Json) (hk : k ≠ "id") :
    ∀ base : List (String × Json),
    lookupField (base.map (fun p => if p.1 = k then (k, v2) else p)) ("id") =
      lookupField base ("id") := by
  intro base
  induction base with
  | nil => rfl
  | cons q qs ih =>
    rw [List.map_cons]
    by_cases hq : q.1 = k
    · rw [if_pos hq, lookupField, lookupField, if_neg hk,
        if_neg (fun h2 => hk (hq ▸ h2))]
      exact ih
    · rw [if_neg hq, lookupField, lookupField]
      by_cases hqid : q.1 = "id"
      · rw [if_pos hqid, if_pos hqid]
      · rw [if_neg hqid, if_neg hqid]
        exact ih

theorem lookupField_append_some (v : Json) :
    ∀ (base extra : List (String × Json)),
    lookupField base ("id") = some v →
    lookupField (base ++ extra) ("id") = some v := by
  intro base
  induction base with
  | nil => intro extra h; simp [lookupField] at h
  | cons q qs ih =>
    intro extra h
    rw [List.cons_append, lookupField]
    rw [lookupField] at h
    by_cases hqid : q.1 = "id"
    · rw [if_pos hqid] at h ⊢
      exact h
    · rw [if_neg hqid] at h ⊢
      exact ih extra h

theorem lookupField_objSet_ne (base : List (String × Json)) (k : String)
    (v2 : Json) (v : Json) (hk : k ≠ "id")
    (hbase : lookupField base ("id") = some v) :
    lookupField (objSet base k v2) ("id") = some v := by
  rw [objSet]
  by_cases hany : base.any (fun p => p.1 = k) = true
  · rw [if_pos (by simpa using hany), lookupField_map_set_ne k v2 hk base]
    exact hbase
  · rw [if_neg (by simpa using hany)]
    exact lookupField_append_some v base [(k, v2)] hbase

theorem lookupField_spreadFields (v : Json) (fs : List (String × Json)) :
    ∀ base : List (String × Json),
    lookupField base ("id") = some v →
    (∀ p ∈ fs, p.1 ≠ "id") →
    lookupField (spreadFields base fs) ("id") = some v := by
  induction fs with
  | nil => intro base hbase _; exact hbase
  | cons q qs ih =>
    intro base hbase h
    rw [show spreadFields base (q :: qs) = spreadFields (objSet base q.1 q.2) qs
      from rfl]
    exact ih (objSet base q.1 q.2)
      (lookupField_objSet_ne base q.1 q.2 v (h q (by simp)) hbase)
      (fun p hp => h p (by simp [hp]))

theorem idOf_spreadWithId (v : Json) (a : Json) (h : objHasId a = false) :
    idOf (spreadWithId v a) = some v := by
  cases a with
  | obj fs =>
    rw [spreadWithId, idOf, getField]
    refine lookupField_spreadFields v fs [("id", v)] (by simp [lookupField]) ?_
    intro p hp hpid
    rw [objHasId] at h
    have : fs.any (fun p => p.1 = "id") = true :=
      List.any_eq_true.2 ⟨p, hp, by simp [hpid]⟩
    rw [this] at h
    exact absurd h (by simp)
  | str s => simp [spreadWithId, idOf, getField, lookupField]
  | arr xs => simp [spreadWithId, idOf, getField, lookupField]
  | null => simp [spreadWithId, idOf, getField, lookupField]
  | bool b => simp [spreadWithId, idOf, getField, lookupField]
  | num m k => simp [spreadWithId, idOf, getField, lookupField]

theorem mem_map_idOf (now : Nat) (arts : List Json) :
    ∀ (i : Nat) (x : Option Json), (∀ a ∈ arts, objHasId a = false) →
    x ∈ (articlesWithIdsFrom now i arts).map idOf →
    ∃ j, x = some (Json.num ((now + i + j : Nat) : Int) 0) := by
  induction arts with
  | nil => intro i x _ hx; simp [articlesWithIdsFrom] at hx
  | cons a as ih =>
    intro i x h hx
    rw [articlesWithIdsFrom, List.map_cons, List.mem_cons] at hx
    cases hx with
    | inl he =>
      refine ⟨0, ?_⟩
      rw [he, idOf_spreadWithId _ a (h a (by simp)), Nat.add_zero]
    | inr hm =>
      obtain ⟨j, hj⟩ := ih (i + 1) x (fun y hy => h y (by simp [hy])) hm
      refine ⟨j + 1, ?_⟩
      rw [hj]
      have harith : now + (i + 1) + j = now + i + (j + 1) := by omega
      rw [harith]

theorem pairwise_idOf_articlesWithIdsFrom (now : Nat) (arts : List Json) :
    ∀ i : Nat, (∀ a ∈ arts, objHasId a = false) →
    List.Pairwise (fun x y : Option Json => x ≠ y)
      ((articlesWithIdsFrom now i arts).map idOf) := by
  induction arts with
  | nil => intro i _; simp [articlesWithIdsFrom]
  | cons a as ih =>
    intro i h
    rw [articlesWithIdsFrom, List.map_cons]
    refine List.Pairwise.cons ?_ (ih (i + 1) (fun y hy => h y (by simp [hy])))
    intro x hx
    obtain ⟨j, hj⟩ := mem_map_idOf now as (i + 1) x
      (fun y hy => h y (by simp [hy])) hx
    rw [idOf_spreadWithId _ a (h a (by simp)), hj]
    intro heq
    simp only [Option.some.injEq, Json.num.injEq] at heq
    have : ((now + i : Nat) : Int) = ((now + (i + 1) + j : Nat) : Int) := heq.1
    rw [Nat.cast_inj] at this
    omega

/-- C6 amended: every batch the fallback loop produces is the
id-enrichment of the extracted records, and provided no extracted record is
an object already carrying an `id` key, the synthetic ids (current time
plus positional index) make the ids of the batch pairwise distinct. -/
theorem ids_pairwise_distinct_amended (oracle : String → String → UpstreamOutcome)
    (now : Nat) (p : String) (models : List String) (batch : List Json)
    (h : (generateLoop oracle now p models).result = some batch) :
    ∃ arts, batch = articlesWithIds now arts ∧
      ((∀ a ∈ arts, objHasId a = false) →
        List.Pairwise (fun x y : Option Json => x ≠ y) (batch.map idOf)) := by
  induction models with
  | nil => simp [generateLoop] at h
  | cons m ms ih =>
    rw [generateLoop] at h
    cases ha : attemptModel oracle m p with
    | some arts =>
      rw [ha] at h
      simp only [Option.some.injEq] at h
      refine ⟨arts, h.symm, ?_⟩
      intro hno
      rw [← h]
      exact pairwise_idOf_articlesWithIdsFrom now arts 0 hno
    | none =>
      rw [ha] at h
      exact ih h

/-- Witness for C6 amended, at a concrete two-record batch without
upstream ids. -/
theorem ids_pairwise_distinct_amended_witness :
    ∃ arts,
      [Json.obj [("id", Json.num 7 0), ("a", Json.num 1 0)],
        Json.obj [("id", Json.num 8 0)]] = articlesWithIds 7 arts ∧
      ((∀ a ∈ arts, objHasId a = false) →
        List.Pairwise (fun x y : Option Json => x ≠ y)
          ([Json.obj [("id", Json.num 7 0), ("a", Json.num 1 0)],
            Json.obj [("id", Json.num 8 0)]].map idOf)) :=
  ids_pairwise_distinct_amended
    (fun _ _ => UpstreamOutcome.okText ("[\x7b\"a\": 1\x7d, 2]")) 7 ("p") ["m"]
    _ rfl

/-- C7: replacing the cache installs exactly the supplied batch (a
subsequent read returns it unchanged and in order) and reports its length;
an empty or absent batch clears the cache with count 0. -/
theorem cache_replace_readAll (b : List Json) :
    readArticles (updateCache (some b)).1 = b ∧
    (updateCache (some b)).2 = b.length ∧
    readArticles (updateCache (some [])).1 = [] ∧
    (updateCache (some [])).2 = 0 ∧
    readArticles (updateCache none).1 = [] ∧
    (updateCache none).2 = 0 :=
  ⟨rfl, rfl, rfl, rfl, rfl, rfl⟩

/-- C8: the feed renders one item per article for exactly the first
`min(length, 20)` cached articles, in cache order with no sorting; in
particular a 25-item batch yields exactly 20 items. -/
theorem rss_first_twenty (display toUTC : Option Json → String)
    (baseUrl : String) (cache : List Json) :
    rssItemList display toUTC baseUrl cache =
      (cache.take 20).map (itemXml display toUTC baseUrl) ∧
    (rssItemList display toUTC baseUrl cache).length = min cache.length 20 ∧
    (cache.length = 25 → (rssItemList display toUTC baseUrl cache).length = 20) := by
  refine ⟨rfl, ?_, ?_⟩
  · rw [rssItemList, List.length_map, List.length_take, Nat.min_comm]
  · intro h25
    rw [rssItemList, List.length_map, List.length_take, h25]
    omega

/-- Witness for C8 at a concrete 25-article cache. -/
theorem rss_first_twenty_witness :
    (rssItemList (fun _ => "") (fun _ => "") ("http://x")
      (List.replicate 25 Json.null)).length = 20 :=
  (rss_first_twenty (fun _ => "") (fun _ => "") ("http://x")
    (List.replicate 25 Json.null)).2.2 (by simp)

/-- C9: with the sentinel `random` the resolved category is the drawn
member of the fixed five-element set (and every member is reachable, so a
uniform draw of the index is a uniform draw of the category); any other
category string is used verbatim; and every fallback attempt of the request
is issued with the one prompt built from the resolved category. -/
theorem category_resolution (k : Fin categories.length) (cat : String) :
    (cat = "random" →
      selectedCategory k cat = categories.get k ∧
      selectedCategory k cat ∈ categories) ∧
    (cat ≠ "random" → selectedCategory k cat = cat) ∧
    (∀ c ∈ categories, ∃ k2 : Fin categories.length,
      selectedCategory k2 ("random") = c) ∧
    (∀ oracle now count models,
      ∀ e ∈ (generateNews oracle now k cat count models).attempted,
      e.2 = prompt (selectedCategory k cat) count) := by
  refine ⟨?_, ?_, ?_, ?_⟩
  · intro h
    rw [selectedCategory, if_pos h]
    exact ⟨rfl, List.get_mem categories k.1 k.2⟩
  · intro h
    rw [selectedCategory, if_neg h]
  · intro c hc
    obtain ⟨i, hi⟩ := List.mem_iff_get.1 hc
    exact ⟨i, by rw [selectedCategory, if_pos rfl, hi]⟩
  · intro oracle now count models e he
    exact generateLoop_prompts oracle now _ models e he

/-- Witness for C9: the first index draws politics, and a non-sentinel
category passes through verbatim. -/
theorem category_resolution_witness :
    selectedCategory ⟨0, by decide⟩ ("random") = "politics" ∧
    selectedCategory ⟨1, by decide⟩ ("cricket") = "cricket" := by
  constructor
  · exact ((category_resolution ⟨0, by decide⟩ ("random")).1 rfl).1.trans (by rfl)
  · exact (category_resolution ⟨1, by decide⟩ ("cricket")).2.1 (by decide)

end Briefing
